import Mathlib

/-!
Verification of the skill/tool dispatch-and-audit pipeline of the clawsync
repository: the tool loader (src/convex/agent/toolLoader.ts, second document
of src/convex/threads.ts), the skill invocation audit log
(src/convex/skillInvocations.ts, second document of src/convex/xTwitter.ts),
and the surrounding contracts.

The embedding models machine integers (JavaScript `Date.now()` values and
durations) as `Int`, JavaScript exceptions as `Except String`, and external
collaborators (the security checker, `JSON.parse`, `new URL(...).hostname`,
and `ctx.runAction`) as oracle parameters supplied to each wrapped tool's
`execute` function.
-/

/-- A skill registry record (`Doc<'skillRegistry'>`): the fields the tool
loader and the wrapped tools read. -/
structure Skill where
  name : String
  skillType : String
  description : String
  config : Option String
  templateId : Option String
  approved : Bool
  active : Bool
deriving DecidableEq, Repr

/-- The verdict returned by the security checker (external contract, §4.2 of
the design): `allowed`, a machine-readable `code`, and an optional
human-readable `reason`. -/
structure SecurityVerdict where
  allowed : Bool
  code : String
  reason : Option String
deriving DecidableEq, Repr

/-- JavaScript truthiness of an optional string value (`undefined` and the
empty string are falsy). -/
def strTruthy : Option String → Bool
  | some s => !(s == "")
  | none => false

/-- Modelled from the spec: `truncateForLog` lives in
src/convex/agent/security.ts, which is not part of the provided sources; the
spec says audit entries store truncated input/output strings. The exact
bound is irrelevant to every claim; we use 500 characters. -/
def truncateForLog (s : String) : String := s.take 500

/-- The argument record inserted into `skillInvocationLog` by the internal
mutation `skillInvocations.log`. -/
structure LogArgs where
  skillName : String
  skillType : String
  input : String
  output : Option String
  success : Bool
  errorMessage : Option String
  securityCheckResult : String
  durationMs : Int
  timestamp : Int
deriving DecidableEq, Repr

/-- `logInvocation` (toolLoader.ts): builds the audit entry written for one
invocation attempt. `output` is the raw value passed by the caller (`null`
becomes `none`); the stored field is `output ? truncateForLog(output) :
undefined`, so a falsy output (absent or empty string) is stored as absent.
`durationMs = Date.now() - startTime`, `timestamp = Date.now()`; both
`Date.now()` reads are modelled by the single parameter `now`. -/
def logInvocation (skill : Skill) (input : String) (output : Option String)
    (success : Bool) (securityResult : SecurityVerdict)
    (startTime now : Int) (errorMessage : Option String) : LogArgs :=
  { skillName := skill.name
    skillType := skill.skillType
    input := truncateForLog input
    output := if strTruthy output then (output.map truncateForLog) else none
    success := success
    errorMessage := errorMessage
    securityCheckResult := securityResult.code
    durationMs := now - startTime
    timestamp := now }

/-- The value a wrapped tool's `execute` resolves to: the underlying
action's result returned directly (template and webhook tools), a
`{ result }` wrapper (code tools), or an `{ error }` payload. -/
inductive ToolValue where
  | ok (result : String)
  | okResult (result : String)
  | err (error : Option String)
deriving DecidableEq, Repr

/-- Whether a tool value is the `{ error }` payload shape. -/
def ToolValue.isError : ToolValue → Bool
  | .err _ => true
  | _ => false

/-- The observable outcome of one resolved `execute` call: the value
returned to the caller, the audit entries appended (in order), and whether
the underlying skill action was invoked. -/
structure ExecOutcome where
  value : ToolValue
  logs : List LogArgs
  invokedAction : Bool
deriving DecidableEq, Repr

/-- `execute` of `createTemplateSkillTool` (toolLoader.ts). The security
checker's verdict and the outcome of `ctx.runAction(templates.execute, ...)`
are oracle parameters; `Except.error msg` models the action throwing, with
`msg` the computed error message (`error instanceof Error ? error.message :
'Unknown error'`). The wrapper itself never throws. -/
def templateSkillExecute (skill : Skill) (input : String)
    (securityResult : SecurityVerdict) (actionResult : Except String String)
    (startTime now : Int) : ExecOutcome :=
  if !securityResult.allowed then
    { value := .err securityResult.reason
      logs := [logInvocation skill input none false securityResult startTime now none]
      invokedAction := false }
  else
    match actionResult with
    | .ok result =>
        { value := .ok result
          logs := [logInvocation skill input (some result) true securityResult startTime now none]
          invokedAction := true }
    | .error errorMessage =>
        { value := .err (some errorMessage)
          logs := [logInvocation skill input none false securityResult startTime now (some errorMessage)]
          invokedAction := true }

/-- `execute` of `createCodeSkillTool` (toolLoader.ts). The placeholder
handler builds a result string; nothing inside the `try` can throw, so the
catch branch is dead code and the outcome is always a resolved `{ result }`
or a security denial. -/
def codeSkillExecute (skill : Skill) (query : String)
    (securityResult : SecurityVerdict) (startTime now : Int) : ExecOutcome :=
  if !securityResult.allowed then
    { value := .err securityResult.reason
      logs := [logInvocation skill query none false securityResult startTime now none]
      invokedAction := false }
  else
    let result := "Code skill \"" ++ skill.name ++ "\" executed with query: " ++ query
    { value := .okResult result
      logs := [logInvocation skill query (some result) true securityResult startTime now none]
      invokedAction := true }

/-- The shape `JSON.parse(skill.config)` is interrogated for by the webhook
wrapper: only the `url` property is read. -/
structure WebhookConfig where
  url : Option String
deriving DecidableEq, Repr

/-- The `const config = skill.config ? JSON.parse(skill.config) : {}` step
of the webhook wrapper. `parseConfig` is the oracle modelling
`JSON.parse(skill.config)`: `Except.error e` means the parse threw `e`
(malformed JSON). The parse is only consulted when `skill.config` is
truthy; otherwise the empty object (no `url`) is used. -/
def webhookParsedConfig (skill : Skill)
    (parseConfig : Except String WebhookConfig) : Except String WebhookConfig :=
  if strTruthy skill.config then parseConfig else .ok { url := none }

/-- The `const domain = config.url ? new URL(config.url).hostname :
undefined` step of the webhook wrapper. `hostnameOf` is the oracle
modelling `new URL(u).hostname`: `Except.error e` means the `URL`
constructor threw `e` (invalid URL). -/
def webhookDomain (config : WebhookConfig)
    (hostnameOf : String → Except String String) : Except String (Option String) :=
  match config.url with
  | some u => if !(u == "") then (hostnameOf u).map some else .ok none
  | none => .ok none

/-- `execute` of `createWebhookSkillTool` (toolLoader.ts). The config parse
and URL construction happen before the security check and outside the
`try`/`catch`, so an exception thrown there propagates to the caller
(modelled by the `Except.error` result) with no audit entry written.
`check` models `checkSecurity(ctx, skill, input, { domain })`; `actionResult`
models `ctx.runAction(templates.webhookCaller, ...)`. -/
def webhookSkillExecute (skill : Skill) (input : String)
    (parseConfig : Except String WebhookConfig)
    (hostnameOf : String → Except String String)
    (check : Option String → SecurityVerdict)
    (actionResult : Except String String)
    (startTime now : Int) : Except String ExecOutcome :=
  match webhookParsedConfig skill parseConfig with
  | .error e => .error e
  | .ok config =>
    match webhookDomain config hostnameOf with
    | .error e => .error e
    | .ok domain =>
      let securityResult := check domain
      if !securityResult.allowed then
        .ok { value := .err securityResult.reason
              logs := [logInvocation skill input none false securityResult startTime now none]
              invokedAction := false }
      else
        match actionResult with
        | .ok result =>
            .ok { value := .ok result
                  logs := [logInvocation skill input (some result) true securityResult startTime now none]
                  invokedAction := true }
        | .error errorMessage =>
            .ok { value := .err (some errorMessage)
                  logs := [logInvocation skill input none false securityResult startTime now (some errorMessage)]
                  invokedAction := true }

/-- The skill type tags the loader dispatches on. -/
inductive SkillToolKind where
  | template
  | webhook
  | code
deriving DecidableEq, Repr

/-- A tool as it sits in the loaded tool set: the description shown to the
model, the dispatch kind, and the captured skill snapshot whose `execute`
closure the tool wraps. -/
structure LoadedTool where
  description : String
  kind : SkillToolKind
  skill : Skill
deriving DecidableEq, Repr

/-- `createToolFromSkill` (toolLoader.ts): dispatch on `skill.skillType`,
returning `none` for an unrecognised type (the `default: return null`
branch). Construction reads no config and cannot throw. -/
def createToolFromSkill (skill : Skill) : Option LoadedTool :=
  match skill.skillType with
  | "template" => some { description := skill.description, kind := .template, skill := skill }
  | "webhook" => some { description := skill.description, kind := .webhook, skill := skill }
  | "code" => some { description := skill.description, kind := .code, skill := skill }
  | _ => none

/-- Modelled from the spec: `skillRegistry.getActiveApproved` lives in
src/convex/skillRegistry.ts, which is not part of the provided sources. The
spec states "A skill is eligible for loading iff `approved && active`", and
the loader's comment reads "Skills from skillRegistry (approved + active)". -/
def getActiveApproved (registry : List Skill) : List Skill :=
  registry.filter (fun s => s.approved && s.active)

/-- One step of the loader's `for` loop: if `createToolFromSkill` produced
a tool, assign `tools[skill.name] = toolFn`, overwriting any earlier entry
of the same name; otherwise leave the tool set unchanged. -/
def addTool (tools : String → Option LoadedTool) (skill : Skill) :
    String → Option LoadedTool :=
  match createToolFromSkill skill with
  | some toolFn => fun n => if n = skill.name then some toolFn else tools n
  | none => tools

/-- `loadTools` (toolLoader.ts): iterate the eligible skills in registry
order, adding each constructible skill's tool. The produced tool set is
modelled as the name-lookup function of the final `tools` object. -/
def loadTools (registry : List Skill) : String → Option LoadedTool :=
  (getActiveApproved registry).foldl addTool (fun _ => none)

/-- A stored row of the `skillInvocationLog` table: the inserted argument
record plus the database identity `_id` used by deletes. -/
structure LogRow extends LogArgs where
  id : Nat
deriving DecidableEq, Repr

/-- Newest-first ordering of audit rows. Modelled from the spec: the table's
index definitions live in src/convex/schema.ts, which is not part of the
provided sources; the spec states all three reads return entries ordered
newest-first, i.e. by descending `timestamp`. -/
def newerFirst (a b : LogRow) : Prop := b.timestamp ≤ a.timestamp

instance : DecidableRel newerFirst := fun a b =>
  inferInstanceAs (Decidable (b.timestamp ≤ a.timestamp))

instance : IsTotal LogRow newerFirst :=
  ⟨fun a b => le_total b.timestamp a.timestamp⟩

instance : IsTrans LogRow newerFirst :=
  ⟨fun _ _ _ h h' => le_trans h' h⟩

/-- The table scanned in descending index order (newest first). -/
def scanDesc (table : List LogRow) : List LogRow :=
  List.insertionSort newerFirst table

/-- `skillInvocations.listBySkill`: rows of one skill, newest first, at most
`limit ?? 50` rows. -/
def listBySkill (table : List LogRow) (skillName : String)
    (limit : Option Nat) : List LogRow :=
  ((scanDesc table).filter (fun r => r.skillName == skillName)).take (limit.getD 50)

/-- `skillInvocations.listRecent`: all rows, newest first, at most
`limit ?? 50` rows. -/
def listRecent (table : List LogRow) (limit : Option Nat) : List LogRow :=
  (scanDesc table).take (limit.getD 50)

/-- `skillInvocations.listSecurityFailures`: rows whose
`securityCheckResult` differs from `"passed"`, newest first, at most
`limit ?? 50` rows. -/
def listSecurityFailures (table : List LogRow) (limit : Option Nat) : List LogRow :=
  ((scanDesc table).filter (fun r => !(r.securityCheckResult == "passed"))).take (limit.getD 50)

/-- The retention window: `30 * 24 * 60 * 60 * 1000` milliseconds. -/
def RETENTION_WINDOW_MS : Int := 30 * 24 * 60 * 60 * 1000

/-- The `oldLogs` batch selected by one sweep: at most 1000 rows whose
`timestamp` is strictly below `cutoff = Date.now() - 30 days`. -/
def cleanupBatch (table : List LogRow) (now : Int) : List LogRow :=
  (table.filter (fun r => decide (r.timestamp < now - RETENTION_WINDOW_MS))).take 1000

/-- `skillInvocations.cleanup`: select the `oldLogs` batch, delete each of
its rows by `_id`, and return `{ deleted: oldLogs.length }`. The model
returns the table after the deletes together with the reported count. -/
def cleanup (table : List LogRow) (now : Int) : List LogRow × Nat :=
  (table.filter (fun r => !((cleanupBatch table now).any (fun o => o.id == r.id))),
   (cleanupBatch table now).length)

/-- The spec's §8 scenario skill: an approved, active webhook skill whose
config carries the hook URL. -/
def pingSkill : Skill :=
  { name := "ping", skillType := "webhook", description := "calls the hook"
    config := some "\x7b\"url\":\"https://example.com/hook\"\x7d"
    templateId := none, approved := true, active := true }

/-- An approved, active webhook skill whose stored config string is
malformed JSON. -/
def badJsonSkill : Skill :=
  { name := "bad-json", skillType := "webhook"
    description := "webhook with malformed config", config := some "\x7boops"
    templateId := none, approved := true, active := true }

/-- An approved, active webhook skill whose stored config parses but whose
`url` value is not a valid URL. -/
def badUrlSkill : Skill :=
  { name := "bad-url", skillType := "webhook"
    description := "webhook with invalid url"
    config := some "\x7b\"url\":\"notaurl\"\x7d"
    templateId := none, approved := true, active := true }

/-- An approved, active code skill. -/
def codeSkill : Skill :=
  { name := "summarize", skillType := "code", description := "summarizes"
    config := none, templateId := none, approved := true, active := true }

/-- An approved, active template skill. -/
def templateSkill : Skill :=
  { name := "draft", skillType := "template", description := "drafts text"
    config := some "\x7b\x7d", templateId := some "t1"
    approved := true, active := true }

/-- The checker verdict of the spec's allow scenario. -/
def passedVerdict : SecurityVerdict :=
  { allowed := true, code := "passed", reason := none }

/-- The checker verdict of the spec's deny scenario. -/
def denyVerdict : SecurityVerdict :=
  { allowed := false, code := "domain_not_allowlisted"
    reason := some "host not permitted" }

/-- A checker oracle that allows every invocation. -/
def allowAllChecker : Option String → SecurityVerdict := fun _ => passedVerdict

/-- An audit row whose timestamp is far in the past (used to exercise the
retention sweep); `i` is the database identity. -/
def uniformOldRow (i : Nat) : LogRow :=
  { skillName := "ping", skillType := "webhook", input := "hello"
    output := none, success := false, errorMessage := none
    securityCheckResult := "passed", durationMs := 1, timestamp := 0, id := i }

/-- A table holding more old rows than one sweep's 1000-row batch cap. -/
def bigOldTable : List LogRow := (List.range 1001).map uniformOldRow

/-- An audit row recording a passed security check. -/
def passedRow : LogRow :=
  { skillName := "ping", skillType := "webhook", input := "hello"
    output := some "pong", success := true, errorMessage := none
    securityCheckResult := "passed", durationMs := 3, timestamp := 10, id := 0 }

/-- An audit row recording a security denial. -/
def deniedRow : LogRow :=
  { skillName := "ping", skillType := "webhook", input := "hello"
    output := none, success := false, errorMessage := none
    securityCheckResult := "domain_not_allowlisted", durationMs := 2
    timestamp := 5, id := 1 }

/-- What the claimed deny path produces: an `{ error: verdict.reason }`
value, no invocation of the underlying action, and a single audit entry
with `success = false`, no output, and the verdict's code. -/
def deniedOutcome (skill : Skill) (input : String) (v : SecurityVerdict)
    (startTime now : Int) (o : ExecOutcome) : Prop :=
  o.value = ToolValue.err v.reason ∧
  o.invokedAction = false ∧
  o.logs = [logInvocation skill input none false v startTime now none] ∧
  ∀ e ∈ o.logs, e.success = false ∧ e.output = none ∧
    e.securityCheckResult = v.code

/-- Whether a webhook `execute` call resolved to a value (rather than
propagating an exception). -/
def execResolves (r : Except String ExecOutcome) : Bool :=
  match r with
  | .ok _ => true
  | .error _ => false

/-! ## Helper lemmas -/

/-- Splitting a list's length by a predicate. -/
theorem length_filter_add_length_filter_not {α : Type} (p : α → Bool)
    (l : List α) :
    (l.filter p).length + (l.filter (fun a => !(p a))).length = l.length := by
  induction l with
  | nil => simp
  | cons a l ih =>
    cases h : p a <;> simp [List.filter_cons, h] <;> omega

/-- A tool constructed by `createToolFromSkill` captures exactly the skill
it was built from. -/
theorem createToolFromSkill_skill {s : Skill} {t : LoadedTool}
    (h : createToolFromSkill s = some t) : t.skill = s := by
  unfold createToolFromSkill at h
  split at h <;>
    first
    | (injection h with h; rw [← h])
    | exact Option.noConfusion h

/-- Lookup in the loader's fold: the tool under a name is the one from the
last scanned skill carrying that name whose construction produced a tool;
when no such skill was scanned, the initial tool set answers. -/
theorem foldl_addTool_lookup (skills : List Skill)
    (init : String → Option LoadedTool) (n : String) :
    (skills.foldl addTool init) n =
      match (skills.filter
          (fun s => s.name == n && (createToolFromSkill s).isSome)).getLast? with
      | some s => createToolFromSkill s
      | none => init n := by
  induction skills generalizing init with
  | nil => simp
  | cons s rest ih =>
    rw [List.foldl_cons, ih]
    cases hp : (s.name == n && (createToolFromSkill s).isSome) with
    | true =>
      simp only [List.filter_cons, hp, if_true]
      cases hrest : (rest.filter
          (fun s => s.name == n && (createToolFromSkill s).isSome)) with
      | nil =>
        simp only [List.getLast?_singleton]
        obtain ⟨hn, hsome⟩ := Bool.and_eq_true_iff.mp hp
        obtain ⟨t, ht⟩ := Option.isSome_iff_exists.mp hsome
        rw [beq_iff_eq] at hn
        simp [addTool, ht, hn]
      | cons b bs =>
        rw [List.getLast?_cons_cons]
        obtain ⟨x, hx⟩ := Option.isSome_iff_exists.mp
          (List.getLast?_isSome.mpr (List.cons_ne_nil b bs))
        rw [hx]
    | false =>
      simp only [List.filter_cons, hp, Bool.false_eq_true, if_false]
      cases hlast : (rest.filter
          (fun s => s.name == n && (createToolFromSkill s).isSome)).getLast? with
      | some s' => rfl
      | none =>
        show addTool init s n = init n
        unfold addTool
        cases hct : createToolFromSkill s with
        | none => rfl
        | some t =>
          have hn : ¬(n = s.name) := by
            intro he
            subst he
            simp [hct] at hp
          simp [hn]

/-! ## Claim theorems -/

/-- C4: whenever the security checker returns a verdict with
`allowed = false`, every wrapped tool (template, code, and any resolving
webhook invocation) skips the underlying action, writes a single audit
entry with `success = false`, no output, and `securityCheckResult` equal to
the verdict's code, and returns an error payload carrying the verdict's
human-readable reason. -/
theorem C4_denied_invocation (skill : Skill) (input : String)
    (v : SecurityVerdict) (act : Except String String) (st now : Int)
    (hdeny : v.allowed = false) :
    deniedOutcome skill input v st now
      (templateSkillExecute skill input v act st now) ∧
    deniedOutcome skill input v st now
      (codeSkillExecute skill input v st now) ∧
    (∀ (pc : Except String WebhookConfig)
        (ho : String → Except String String)
        (ck : Option String → SecurityVerdict) (o : ExecOutcome),
        (∀ d, ck d = v) →
        webhookSkillExecute skill input pc ho ck act st now = Except.ok o →
        deniedOutcome skill input v st now o) := by
  refine ⟨?_, ?_, ?_⟩
  · simp [templateSkillExecute, hdeny, deniedOutcome, logInvocation, strTruthy]
  · simp [codeSkillExecute, hdeny, deniedOutcome, logInvocation, strTruthy]
  · intro pc ho ck o hck h
    cases hpc : webhookParsedConfig skill pc with
    | error e =>
      simp only [webhookSkillExecute, hpc] at h
      exact Except.noConfusion h
    | ok c =>
      cases hd : webhookDomain c ho with
      | error e =>
        simp only [webhookSkillExecute, hpc, hd] at h
        exact Except.noConfusion h
      | ok d =>
        simp only [webhookSkillExecute, hpc, hd, hck d, hdeny,
          Bool.not_false, if_true, Except.ok.injEq] at h
        subst h
        simp [deniedOutcome, logInvocation, strTruthy]

/-- C4 witness: the spec's deny scenario on the template path. -/
theorem C4_denied_invocation_witness :
    deniedOutcome pingSkill "hello" denyVerdict 0 5
      (templateSkillExecute pingSkill "hello" denyVerdict (Except.ok "pong") 0 5) :=
  (C4_denied_invocation pingSkill "hello" denyVerdict (Except.ok "pong") 0 5 rfl).1

/-- C9: every tool present in the loaded tool set was built from a skill
snapshot with `approved = true` and `active = true`; skills failing either
flag contribute no tool. -/
theorem C9_only_eligible_loaded (registry : List Skill) (n : String)
    (t : LoadedTool) (h : loadTools registry n = some t) :
    t.skill.approved = true ∧ t.skill.active = true := by
  unfold loadTools at h
  rw [foldl_addTool_lookup] at h
  revert h
  cases hlast : ((getActiveApproved registry).filter
      (fun s => s.name == n && (createToolFromSkill s).isSome)).getLast? with
  | none => intro h; exact Option.noConfusion h
  | some s =>
    intro h
    have hmem : s ∈ (getActiveApproved registry).filter
        (fun s => s.name == n && (createToolFromSkill s).isSome) :=
      List.mem_of_mem_getLast? (Option.mem_def.mpr hlast)
    have hs : s ∈ getActiveApproved registry := (List.mem_filter.mp hmem).1
    have helig : (s.approved && s.active) = true :=
      (List.mem_filter.mp hs).2
    have hskill : t.skill = s := createToolFromSkill_skill h
    rw [hskill]
    exact Bool.and_eq_true_iff.mp helig

/-- C9 witness: a concrete eligible code skill is loaded and its snapshot
carries both flags. -/
theorem C9_only_eligible_loaded_witness :
    (⟨"summarizes", SkillToolKind.code, codeSkill⟩ : LoadedTool).skill.approved = true ∧
    (⟨"summarizes", SkillToolKind.code, codeSkill⟩ : LoadedTool).skill.active = true :=
  C9_only_eligible_loaded [codeSkill] "summarize"
    ⟨"summarizes", SkillToolKind.code, codeSkill⟩ (by decide)

/-- C10: the loaded tool set resolves each name by last-write-wins — the
lookup equals the tool built from the last eligible skill of that name (in
registry order) whose construction produced a tool, with no error for the
shadowed skills. -/
theorem C10_last_write_wins (registry : List Skill) (n : String) :
    loadTools registry n =
      match ((getActiveApproved registry).filter
          (fun s => s.name == n && (createToolFromSkill s).isSome)).getLast? with
      | some s => createToolFromSkill s
      | none => none := by
  unfold loadTools
  rw [foldl_addTool_lookup]


/-- C1 counterexample: invoking the webhook tool of a skill whose stored
config string is malformed JSON propagates the `JSON.parse` exception to
the caller; no audit entry is written and no value is returned, refuting
the claim that every invocation writes exactly one entry. -/
theorem C1_counterexample :
    webhookSkillExecute badJsonSkill "hello"
      (Except.error "Unexpected end of JSON input")
      (fun _ => Except.ok "example.com") allowAllChecker
      (Except.ok "pong") 0 5
    = Except.error "Unexpected end of JSON input" := by
  rfl

/-- C1 (amended): template and code invocations, and every webhook
invocation that resolves (config parse and URL construction did not throw),
write exactly one audit entry, whose `success` flag is true iff the
returned value is a result payload and false iff it is an error payload; a
webhook invocation whose config parse or URL construction throws writes no
entry and propagates the exception instead. -/
theorem C1_audit_entry_amended :
    (∀ (skill : Skill) (input : String) (v : SecurityVerdict)
        (act : Except String String) (st now : Int),
        (templateSkillExecute skill input v act st now).logs.length = 1 ∧
        ∀ e ∈ (templateSkillExecute skill input v act st now).logs,
          e.success = !(templateSkillExecute skill input v act st now).value.isError) ∧
    (∀ (skill : Skill) (q : String) (v : SecurityVerdict) (st now : Int),
        (codeSkillExecute skill q v st now).logs.length = 1 ∧
        ∀ e ∈ (codeSkillExecute skill q v st now).logs,
          e.success = !(codeSkillExecute skill q v st now).value.isError) ∧
    (∀ (skill : Skill) (input : String) (pc : Except String WebhookConfig)
        (ho : String → Except String String)
        (ck : Option String → SecurityVerdict)
        (act : Except String String) (st now : Int) (o : ExecOutcome),
        webhookSkillExecute skill input pc ho ck act st now = Except.ok o →
        o.logs.length = 1 ∧ ∀ e ∈ o.logs, e.success = !o.value.isError) := by
  refine ⟨?_, ?_, ?_⟩
  · intro skill input v act st now
    cases hv : v.allowed <;> cases act <;>
      simp [templateSkillExecute, hv, logInvocation, ToolValue.isError]
  · intro skill q v st now
    cases hv : v.allowed <;>
      simp [codeSkillExecute, hv, logInvocation, ToolValue.isError]
  · intro skill input pc ho ck act st now o h
    cases hpc : webhookParsedConfig skill pc with
    | error e =>
      simp only [webhookSkillExecute, hpc] at h
      exact Except.noConfusion h
    | ok c =>
      cases hd : webhookDomain c ho with
      | error e =>
        simp only [webhookSkillExecute, hpc, hd] at h
        exact Except.noConfusion h
      | ok d =>
        cases hv : (ck d).allowed with
        | false =>
          simp only [webhookSkillExecute, hpc, hd, hv, Bool.not_false,
            if_true, Except.ok.injEq] at h
          subst h
          simp [logInvocation, ToolValue.isError]
        | true =>
          cases act with
          | ok r =>
            simp only [webhookSkillExecute, hpc, hd, hv, Bool.not_true,
              Bool.false_eq_true, if_false, Except.ok.injEq] at h
            subst h
            simp [logInvocation, ToolValue.isError]
          | error m =>
            simp only [webhookSkillExecute, hpc, hd, hv, Bool.not_true,
              Bool.false_eq_true, if_false, Except.ok.injEq] at h
            subst h
            simp [logInvocation, ToolValue.isError]

/-- C1 witness: the spec's §8 allow scenario — webhook call succeeds, one
entry is written. -/
theorem C1_audit_entry_amended_witness :
    ({ value := ToolValue.ok "pong"
       logs := [logInvocation pingSkill "hello" (some "pong") true passedVerdict 0 5 none]
       invokedAction := true } : ExecOutcome).logs.length = 1 :=
  (C1_audit_entry_amended.2.2 pingSkill "hello"
    (Except.ok { url := some "https://example.com/hook" })
    (fun _ => Except.ok "example.com") allowAllChecker (Except.ok "pong") 0 5
    { value := ToolValue.ok "pong"
      logs := [logInvocation pingSkill "hello" (some "pong") true passedVerdict 0 5 none]
      invokedAction := true } (by rfl)).1

/-- C2 counterexample: invoking the webhook tool of a skill whose config
parses but whose `url` is not a valid URL propagates the `URL` constructor
exception to the caller instead of resolving to a value, refuting the claim
that `execute` never propagates an exception. -/
theorem C2_counterexample :
    webhookSkillExecute badUrlSkill "hi"
      (Except.ok { url := some "notaurl" })
      (fun _ => Except.error "Invalid URL: notaurl") allowAllChecker
      (Except.ok "pong") 0 5
    = Except.error "Invalid URL: notaurl" := by
  rfl

/-- C2 (amended): the template and code `execute` functions always resolve
to a value (they are total in the model); the webhook `execute` resolves to
a value whenever the config-parse and URL-construction steps do not throw,
and the only exceptions it can propagate are exactly the ones thrown by
those two pre-security steps. -/
theorem C2_resolve_amended :
    ∀ (skill : Skill) (input : String) (pc : Except String WebhookConfig)
      (ho : String → Except String String)
      (ck : Option String → SecurityVerdict)
      (act : Except String String) (st now : Int),
      (∀ e, webhookSkillExecute skill input pc ho ck act st now = Except.error e →
        webhookParsedConfig skill pc = Except.error e ∨
        ∃ c, webhookParsedConfig skill pc = Except.ok c ∧
          webhookDomain c ho = Except.error e) ∧
      (∀ c d, webhookParsedConfig skill pc = Except.ok c →
        webhookDomain c ho = Except.ok d →
        execResolves (webhookSkillExecute skill input pc ho ck act st now) = true) := by
  intro skill input pc ho ck act st now
  constructor
  · intro e h
    cases hpc : webhookParsedConfig skill pc with
    | error e' =>
      simp only [webhookSkillExecute, hpc, Except.error.injEq] at h
      subst h
      exact Or.inl rfl
    | ok c =>
      cases hd : webhookDomain c ho with
      | error e' =>
        simp only [webhookSkillExecute, hpc, hd, Except.error.injEq] at h
        subst h
        exact Or.inr ⟨c, rfl, hd⟩
      | ok d =>
        cases hv : (ck d).allowed with
        | false =>
          simp only [webhookSkillExecute, hpc, hd, hv, Bool.not_false, if_true] at h
          exact Except.noConfusion h
        | true =>
          cases act with
          | ok r =>
            simp only [webhookSkillExecute, hpc, hd, hv, Bool.not_true,
              Bool.false_eq_true, if_false] at h
            exact Except.noConfusion h
          | error m =>
            simp only [webhookSkillExecute, hpc, hd, hv, Bool.not_true,
              Bool.false_eq_true, if_false] at h
            exact Except.noConfusion h
  · intro c d hpc hd
    cases hv : (ck d).allowed with
    | false =>
      simp only [webhookSkillExecute, hpc, hd, hv, Bool.not_false, if_true]
      rfl
    | true =>
      cases act with
      | ok r =>
        simp only [webhookSkillExecute, hpc, hd, hv, Bool.not_true,
          Bool.false_eq_true, if_false]
        rfl
      | error m =>
        simp only [webhookSkillExecute, hpc, hd, hv, Bool.not_true,
          Bool.false_eq_true, if_false]
        rfl

/-- C2 witness: the spec's §8 allow scenario resolves to a value. -/
theorem C2_resolve_amended_witness :
    execResolves (webhookSkillExecute pingSkill "hello"
      (Except.ok { url := some "https://example.com/hook" })
      (fun _ => Except.ok "example.com") allowAllChecker
      (Except.ok "pong") 0 5) = true :=
  (C2_resolve_amended pingSkill "hello"
    (Except.ok { url := some "https://example.com/hook" })
    (fun _ => Except.ok "example.com") allowAllChecker
    (Except.ok "pong") 0 5).2
    { url := some "https://example.com/hook" } (some "example.com")
    (by rfl) (by rfl)

/-- C3 counterexample: the invocation of a webhook skill whose stored
config is malformed JSON is not caught and logged as an execution failure —
the exception escapes the dispatch boundary with no audit entry, refuting
the invocation half of the claim. -/
theorem C3_counterexample :
    webhookSkillExecute badJsonSkill "ping the hook"
      (Except.error "Unexpected token o in JSON at position 1")
      (fun _ => Except.ok "example.com") allowAllChecker
      (Except.ok "pong") 0 5
    = Except.error "Unexpected token o in JSON at position 1" := by
  rfl

/-- C3 (amended): tool construction never throws and never inspects config
(so one bad skill cannot prevent other skills from loading: adding any
skill record leaves every other tool name's lookup unchanged), and a
template skill's execution failure — including one caused by malformed
config inside the executor action — is caught, logged once, and returned as
an error payload; a webhook skill's malformed config, however, throws at
the wrapper's own parse step and escapes the dispatch boundary unlogged. -/
theorem C3_isolation_amended :
    (∀ (s : Skill) (c : Option String),
        (createToolFromSkill { s with config := c }).isSome =
          (createToolFromSkill s).isSome) ∧
    (∀ (registry : List Skill) (b : Skill) (n : String), n ≠ b.name →
        loadTools (registry ++ [b]) n = loadTools registry n) ∧
    (∀ (skill : Skill) (input msg : String) (v : SecurityVerdict) (st now : Int),
        v.allowed = true →
        (templateSkillExecute skill input v (Except.error msg) st now).value =
          ToolValue.err (some msg) ∧
        (templateSkillExecute skill input v (Except.error msg) st now).logs.length = 1) := by
  refine ⟨?_, ?_, ?_⟩
  · intro s c
    cases s
    simp only [createToolFromSkill]
    split <;> rfl
  · intro registry b n hne
    unfold loadTools getActiveApproved
    rw [List.filter_append, List.foldl_append]
    cases hel : (b.approved && b.active) with
    | false => simp [List.filter_cons, hel]
    | true =>
      simp only [List.filter_cons, hel, if_true, List.filter_nil,
        List.foldl_cons, List.foldl_nil]
      unfold addTool
      cases createToolFromSkill b with
      | none => rfl
      | some t => simp [hne]
  · intro skill input msg v st now hv
    simp [templateSkillExecute, hv]

/-- C3 witness: a template skill whose executor throws on its bad config is
caught and surfaced as an error payload. -/
theorem C3_isolation_amended_witness :
    (templateSkillExecute templateSkill "hello" passedVerdict
        (Except.error "Unexpected token in config JSON") 0 5).value =
      ToolValue.err (some "Unexpected token in config JSON") :=
  (C3_isolation_amended.2.2 templateSkill "hello"
    "Unexpected token in config JSON" passedVerdict 0 5 rfl).1

/-- Filtering a duplicate-free list down to the members of one of its
sublists recovers exactly that sublist. -/
theorem filter_mem_of_sublist {α : Type} [DecidableEq α] {sub l : List α}
    (h : sub.Sublist l) (hnd : l.Nodup) :
    l.filter (fun a => decide (a ∈ sub)) = sub := by
  induction h with
  | slnil => rfl
  | @cons l1 l2 a h ih =>
    obtain ⟨hna, hnd'⟩ := List.nodup_cons.mp hnd
    rw [List.filter_cons]
    have hnotin : a ∉ l1 := fun hin => hna (h.subset hin)
    simp only [hnotin, decide_eq_false, Bool.false_eq_true, if_false]
    exact ih hnd'
  | @cons₂ l1 l2 a h ih =>
    obtain ⟨hna, hnd'⟩ := List.nodup_cons.mp hnd
    have hcongr : List.filter (fun x => decide (x ∈ a :: l1)) l2 =
        List.filter (fun x => decide (x ∈ l1)) l2 := by
      apply List.filter_congr
      intro x hx
      have hxa : ¬(x = a) := fun he => hna (he ▸ hx)
      simp [List.mem_cons, hxa]
    have hself : decide (a ∈ a :: l1) = true :=
      decide_eq_true (List.mem_cons_self a l1)
    rw [List.filter_cons, if_pos hself, hcongr, ih hnd']

/-- Under duplicate-free row identities, the sweep's per-row `_id` scan of
a batch drawn from the table coincides with membership in the batch. -/
theorem any_id_eq_mem {old table : List LogRow} (hsub : old.Sublist table)
    (hnd : (table.map (fun r => r.id)).Nodup) {r : LogRow} (hr : r ∈ table) :
    (old.any (fun o => o.id == r.id)) = decide (r ∈ old) := by
  cases hmem : decide (r ∈ old) with
  | true =>
    exact List.any_eq_true.mpr ⟨r, of_decide_eq_true hmem, by simp⟩
  | false =>
    apply List.any_eq_false.mpr
    intro o ho hbeq
    have hid : o.id = r.id := beq_iff_eq.mp hbeq
    have : o = r := List.inj_on_of_nodup_map hnd (hsub.subset ho) hr hid
    exact of_decide_eq_false hmem (this ▸ ho)

/-- C5: all three audit reads return rows ordered newest-first and return
at most the requested limit (50 when none is supplied). -/
theorem C5_reads_sorted_bounded (table : List LogRow) (name : String)
    (limit : Option Nat) :
    ((listBySkill table name limit).Pairwise newerFirst ∧
      (listBySkill table name limit).length ≤ limit.getD 50) ∧
    ((listRecent table limit).Pairwise newerFirst ∧
      (listRecent table limit).length ≤ limit.getD 50) ∧
    ((listSecurityFailures table limit).Pairwise newerFirst ∧
      (listSecurityFailures table limit).length ≤ limit.getD 50) := by
  have hsorted : (scanDesc table).Pairwise newerFirst :=
    List.sorted_insertionSort newerFirst table
  refine ⟨⟨?_, ?_⟩, ⟨?_, ?_⟩, ⟨?_, ?_⟩⟩
  · exact List.Pairwise.sublist (List.take_sublist _ _) (hsorted.filter _)
  · exact List.length_take_le _ _
  · exact List.Pairwise.sublist (List.take_sublist _ _) hsorted
  · exact List.length_take_le _ _
  · exact List.Pairwise.sublist (List.take_sublist _ _) (hsorted.filter _)
  · exact List.length_take_le _ _

/-- C6: every row returned by the security-failures read has a
`securityCheckResult` other than `"passed"`, and whenever the stored
failure rows fit inside the page limit, every stored failure row is
returned. -/
theorem C6_security_failures (table : List LogRow) (limit : Option Nat) :
    (∀ r ∈ listSecurityFailures table limit, r.securityCheckResult ≠ "passed") ∧
    (∀ r ∈ table, r.securityCheckResult ≠ "passed" →
      table.countP (fun x => !(x.securityCheckResult == "passed")) ≤ limit.getD 50 →
      r ∈ listSecurityFailures table limit) := by
  constructor
  · intro r hr
    have h1 : r ∈ (scanDesc table).filter
        (fun r => !(r.securityCheckResult == "passed")) :=
      (List.take_sublist _ _).subset hr
    have h2 := (List.mem_filter.mp h1).2
    intro he
    rw [he] at h2
    simp at h2
  · intro r hr hne hcount
    unfold listSecurityFailures
    have hlen : ((scanDesc table).filter
        (fun r => !(r.securityCheckResult == "passed"))).length ≤ limit.getD 50 := by
      unfold scanDesc
      rw [← List.countP_eq_length_filter,
        (List.perm_insertionSort newerFirst table).countP_eq]
      exact hcount
    rw [List.take_of_length_le hlen, List.mem_filter]
    refine ⟨?_, ?_⟩
    · exact ((List.perm_insertionSort newerFirst table).mem_iff).mpr hr
    · simp [hne]

/-- C6 witness: a denial row is among the returned failures of a concrete
two-row table. -/
theorem C6_security_failures_witness :
    deniedRow ∈ listSecurityFailures [passedRow, deniedRow] none :=
  (C6_security_failures [passedRow, deniedRow] none).2 deniedRow
    (by decide) (by decide) (by decide)

/-- C7: one sweep over a table with duplicate-free row identities deletes
only rows strictly older than the 30-day cutoff, deletes at most 1000
rows, keeps every row at or newer than the cutoff, and reports exactly the
number of rows deleted. -/
theorem C7_retention_sweep (table : List LogRow) (now : Int)
    (hnd : (table.map (fun r => r.id)).Nodup) :
    (∀ r ∈ table, r ∉ (cleanup table now).1 →
        r.timestamp < now - RETENTION_WINDOW_MS) ∧
    (cleanup table now).2 ≤ 1000 ∧
    (∀ r ∈ table, now - RETENTION_WINDOW_MS ≤ r.timestamp →
        r ∈ (cleanup table now).1) ∧
    (cleanup table now).2 + (cleanup table now).1.length = table.length := by
  have hsub : (cleanupBatch table now).Sublist table :=
    (List.take_sublist _ _).trans (List.filter_sublist _)
  have htnd : table.Nodup := List.Nodup.of_map _ hnd
  have hrem : (cleanup table now).1 =
      table.filter (fun r => !(decide (r ∈ cleanupBatch table now))) := by
    show table.filter _ = _
    apply List.filter_congr
    intro x hx
    rw [any_id_eq_mem hsub hnd hx]
  have hnotbatch : ∀ r ∈ table, ¬(r.timestamp < now - RETENTION_WINDOW_MS) →
      decide (r ∈ cleanupBatch table now) = false := by
    intro r _ hts
    apply decide_eq_false
    intro hin
    have h1 : r ∈ table.filter
        (fun r => decide (r.timestamp < now - RETENTION_WINDOW_MS)) :=
      (List.take_sublist _ _).subset hin
    exact hts (of_decide_eq_true (List.mem_filter.mp h1).2)
  refine ⟨?_, ?_, ?_, ?_⟩
  · intro r hr hnot
    by_contra hts
    apply hnot
    rw [hrem, List.mem_filter]
    refine ⟨hr, ?_⟩
    rw [Bool.not_eq_true']
    exact hnotbatch r hr hts
  · exact List.length_take_le _ _
  · intro r hr hts
    rw [hrem, List.mem_filter]
    refine ⟨hr, ?_⟩
    rw [Bool.not_eq_true']
    exact hnotbatch r hr (not_lt.mpr hts)
  · rw [hrem]
    show (cleanupBatch table now).length + _ = _
    have hlen := length_filter_add_length_filter_not
      (fun a => decide (a ∈ cleanupBatch table now)) table
    rw [filter_mem_of_sublist hsub htnd] at hlen
    exact hlen

/-- C7 witness: on a concrete two-row table the reported count plus the
surviving rows equals the original size. -/
theorem C7_retention_sweep_witness :
    (cleanup [uniformOldRow 7, passedRow] (RETENTION_WINDOW_MS + 1)).2 +
      (cleanup [uniformOldRow 7, passedRow] (RETENTION_WINDOW_MS + 1)).1.length =
      ([uniformOldRow 7, passedRow] : List LogRow).length :=
  (C7_retention_sweep [uniformOldRow 7, passedRow] (RETENTION_WINDOW_MS + 1)
    (by decide)).2.2.2

set_option maxRecDepth 4000 in
/-- On a table of 1001 old rows, the first sweep's 1000-row batch cap
leaves exactly the row with identity 1000 behind. -/
theorem bigOldTable_first_remaining :
    (cleanup bigOldTable (RETENTION_WINDOW_MS + 1)).1 = [uniformOldRow 1000] := by
  have hq : bigOldTable.filter
      (fun r => decide (r.timestamp < (RETENTION_WINDOW_MS + 1) - RETENTION_WINDOW_MS)) =
      bigOldTable := by
    rw [List.filter_eq_self]
    intro r hr
    obtain ⟨i, hi, rfl⟩ := List.mem_map.mp hr
    simp [uniformOldRow]
  have hbatch : cleanupBatch bigOldTable (RETENTION_WINDOW_MS + 1) =
      (List.range 1000).map uniformOldRow := by
    unfold cleanupBatch
    rw [hq]
    unfold bigOldTable
    rw [← List.map_take, List.take_range,
      inf_eq_left.mpr (by omega : (1000 : Nat) ≤ 1001)]
  have hany : ∀ i : Nat,
      (((List.range 1000).map uniformOldRow).any
        (fun o => o.id == (uniformOldRow i).id)) = decide (i < 1000) := by
    intro i
    cases hlt : decide (i < 1000) with
    | true =>
      exact List.any_eq_true.mpr
        ⟨uniformOldRow i,
          List.mem_map.mpr ⟨i, List.mem_range.mpr (of_decide_eq_true hlt), rfl⟩,
          by simp⟩
    | false =>
      apply List.any_eq_false.mpr
      intro o ho hbeq
      obtain ⟨j, hj, rfl⟩ := List.mem_map.mp ho
      have hji : j = i := by
        have : (uniformOldRow j).id = (uniformOldRow i).id := beq_iff_eq.mp hbeq
        simpa [uniformOldRow] using this
      exact of_decide_eq_false hlt (hji ▸ List.mem_range.mp hj)
  have hfst : ∀ (t : List LogRow) (n : Int), (cleanup t n).1 =
      List.filter
        (fun r => !((cleanupBatch t n).any (fun o => o.id == r.id))) t :=
    fun _ _ => rfl
  have hrem : (cleanup bigOldTable (RETENTION_WINDOW_MS + 1)).1 =
      bigOldTable.filter (fun r => !(decide (r.id < 1000))) := by
    rw [hfst]
    apply List.filter_congr
    intro x hx
    obtain ⟨i, hi, rfl⟩ := List.mem_map.mp hx
    rw [hbatch, hany i]
    simp [uniformOldRow]
  rw [hrem]
  unfold bigOldTable
  rw [List.filter_map]
  have hfr : (List.range 1001).filter
      (fun i => ((fun r => !(decide (r.id < 1000))) ∘ uniformOldRow) i) = [1000] := by
    rw [show (1001 : Nat) = Nat.succ 1000 from rfl, List.range_succ,
      List.filter_append]
    have h1 : (List.range 1000).filter
        (fun i => ((fun r => !(decide (r.id < 1000))) ∘ uniformOldRow) i) = [] := by
      rw [List.filter_eq_nil_iff]
      intro i hi
      have hi' := List.mem_range.mp hi
      simp [Function.comp, uniformOldRow, hi']
    have h2 : ([1000] : List Nat).filter
        (fun i => ((fun r => !(decide (r.id < 1000))) ∘ uniformOldRow) i) = [1000] := by
      decide
    rw [h1, h2, List.nil_append]
  rw [hfr]
  rfl

/-- C8 counterexample: with 1001 rows older than the cutoff, the first
sweep deletes only its 1000-row batch, so an immediately repeated sweep
with no new entries still deletes 1 row — not 0. -/
theorem C8_counterexample :
    (cleanup (cleanup bigOldTable (RETENTION_WINDOW_MS + 1)).1
      (RETENTION_WINDOW_MS + 1)).2 = 1 := by
  rw [bigOldTable_first_remaining]
  decide

/-- C8 (amended): if a sweep reports fewer than 1000 deletions (its batch
cap was not hit), then a second sweep at the same current time over the
surviving table, with no entries added in between, deletes 0 rows; when
the first report hits the cap, old rows may remain for the second sweep. -/
theorem C8_second_sweep_amended (table : List LogRow) (now : Int)
    (h : (cleanup table now).2 < 1000) :
    (cleanup (cleanup table now).1 now).2 = 0 := by
  have hflen : (table.filter
      (fun r => decide (r.timestamp < now - RETENTION_WINDOW_MS))).length < 1000 := by
    by_contra hge
    push_neg at hge
    have hcap : (cleanup table now).2 = 1000 := by
      show ((table.filter _).take 1000).length = 1000
      rw [List.length_take]
      omega
    omega
  have hbatch : cleanupBatch table now =
      table.filter (fun r => decide (r.timestamp < now - RETENTION_WINDOW_MS)) :=
    List.take_of_length_le (le_of_lt hflen)
  have hnil : ((cleanup table now).1).filter
      (fun r => decide (r.timestamp < now - RETENTION_WINDOW_MS)) = [] := by
    rw [List.filter_eq_nil_iff]
    intro r hr hq
    obtain ⟨hrt, hpred⟩ := List.mem_filter.mp hr
    have hrb : r ∈ cleanupBatch table now := by
      rw [hbatch, List.mem_filter]
      exact ⟨hrt, hq⟩
    have hT : (cleanupBatch table now).any (fun o => o.id == r.id) = true :=
      List.any_eq_true.mpr ⟨r, hrb, by simp⟩
    rw [hT] at hpred
    simp at hpred
  show (cleanupBatch (cleanup table now).1 now).length = 0
  unfold cleanupBatch
  rw [hnil]
  rfl

/-- C8 witness: a single old row is cleared in the first sweep and the
repeated sweep deletes nothing. -/
theorem C8_second_sweep_amended_witness :
    (cleanup (cleanup [uniformOldRow 3] (RETENTION_WINDOW_MS + 1)).1
      (RETENTION_WINDOW_MS + 1)).2 = 0 :=
  C8_second_sweep_amended [uniformOldRow 3] (RETENTION_WINDOW_MS + 1) (by decide)
